import Mathlib

/-!
# Verification of `pymdp/jax/agent.py` (the jax `Agent` class)

Shallow embedding of the parts of `Agent` that the specification claims talk
about: multi-action encoding/decoding, the `sampling_mode` initialisation, the
`sample_action` entry point, the construction-time `_validate` checks, the
functional parameter update `infer_parameters`, the inductive-matrix
initialisation, the default preference/prior tensors, and the effect of
`infer_states` on the model tensors `self.A`.

Tensors whose numeric content matters are embedded over `ℚ` (exact
real-number semantics of the probability computations); tensors whose content
is irrelevant to a claim are embedded by their shape (`List Nat`) or by an
abstract type parameter.  Python lists indexed with possibly negative indices
are embedded with an explicit partial indexing function `pyIdx` mirroring
Python semantics (negative wrap-around, `IndexError` out of range).
-/

set_option maxHeartbeats 1000000

namespace PymdpAgent

/-! ## Mixed-radix combination numbering (`pymdp/jax/utils.py`)

The helpers `get_combination_index` and `index_to_combination` live in
`pymdp/jax/utils.py`, which is not part of the sources; they are modelled from
the spec (§4.4): "actions must be encoded (multi-index → flat index, via
mixed-radix combination numbering) ... and decoded (flat index → multi-index)".
-/

/-- Product of a list of dimensions (radices). -/
def listProd : List Nat → Nat
  | [] => 1
  | d :: ds => d * listProd ds

/-- Modelled from the spec: `utils.get_combination_index` maps a multi-factor
action vector to a flat action index by mixed-radix (row-major) combination
numbering.  (`pymdp/jax/utils.py` is not under `src/`.) -/
def get_combination_index : List Nat → List Nat → Nat
  | a :: rest, _d :: ds => a * listProd ds + get_combination_index rest ds
  | _, _ => 0

/-- Modelled from the spec: `utils.index_to_combination` maps a flat action
index back to the multi-factor action vector; exact inverse of
`get_combination_index` on valid indices.  (`pymdp/jax/utils.py` is not under
`src/`.) -/
def index_to_combination : Nat → List Nat → List Nat
  | _, [] => []
  | i, _d :: ds => i / listProd ds :: index_to_combination (i % listProd ds) ds

/-! ## Action maps and multi-action encode/decode (`agent.py` lines 591-683) -/

/-- One entry of `Agent.action_maps`, the dict built by
`Agent._flatten_B_action_dims` for each transition factor:
`{"multi_dependency": ..., "multi_dims": ..., "flat_dependency": ..., "flat_dims": ...}`. -/
structure ActionMap where
  multi_dependency : List Nat
  multi_dims : List Nat
  flat_dependency : List Nat
  flat_dims : List Nat
deriving DecidableEq

/-- The action maps built by `Agent._flatten_B_action_dims` (`agent.py`
lines 644-667): for the `i`-th transition factor with action dependency
`dep`, an empty dependency yields the trivial map with flat dimension 1,
otherwise `multi_dims` are the control counts of the factors in `dep` and the
flat dimension is their product.  (The reshaped `B_flat` tensors are not
needed by the encode/decode claims and are not modelled.) -/
def mk_action_maps (num_controls_multi : List Nat) : List (List Nat) → Nat → List ActionMap
  | [], _ => []
  | dep :: rest, i =>
    (if dep = [] then
      ⟨[], [], [i], [1]⟩
    else
      ⟨dep, dep.map (fun d => num_controls_multi.getD d 0), [i],
        [listProd (dep.map (fun d => num_controls_multi.getD d 0))]⟩)
      :: mk_action_maps num_controls_multi rest (i + 1)

/-- Scatter: `xs.at[positions].set(values)` as the sequence of single writes
`xs[positions[k]] := values[k]`. -/
def setMulti : List Nat → List Nat → List Nat → List Nat
  | xs, p :: ps, v :: vs => setMulti (xs.set p v) ps vs
  | xs, _, _ => xs

/-- The loop body of `Agent.decode_multi_actions` (`agent.py` lines 597-602):
for each pair of an action map and the corresponding flat action component,
skip groups with an empty dependency, otherwise scatter the mixed-radix
decoding of the flat component into the multi-action vector at the positions
listed in `multi_dependency`. -/
def decodeGo : List (ActionMap × Nat) → List Nat → List Nat
  | [], acc => acc
  | (am, v) :: rest, acc =>
    if am.multi_dependency = [] then decodeGo rest acc
    else decodeGo rest (setMulti acc am.multi_dependency (index_to_combination v am.multi_dims))

/-- `Agent.decode_multi_actions` (`agent.py` lines 591-603) for one batch
element: start from `jnp.zeros(len(num_controls_multi))` and scatter each
group's decoded multi-action components.  The Python loop reads
`action[..., f]` for the `f`-th map, i.e. iterates over the zip of the maps
with the flat action vector. -/
def decode_multi_actions (action_maps : List ActionMap) (num_controls_multi_len : Nat)
    (action : List Nat) : List Nat :=
  decodeGo (action_maps.zip action) (List.replicate num_controls_multi_len 0)

/-- `Agent.encode_multi_actions` (`agent.py` lines 605-620) for one batch
element: the `f`-th flat action component is 0 for a group with an empty
dependency, otherwise the mixed-radix encoding of the multi-action components
gathered at the positions in `multi_dependency`. -/
def encode_multi_actions (action_maps : List ActionMap) (action_multi : List Nat) : List Nat :=
  action_maps.map (fun am =>
    if am.multi_dependency = [] then 0
    else get_combination_index (am.multi_dependency.map (fun d => action_multi.getD d 0))
      am.multi_dims)

/-! ## `self.A` after `infer_states` (`agent.py` lines 385-394)

In `infer_states` the line `A = self.A` binds the *same* Python list object
held by the agent, and the update `A[i] = m * A[i] + (1 - m) * ...` mutates
that shared list in place.  `infer_states_self_A_after` returns the value of
`self.A` after the call.  Each likelihood tensor is embedded as its flat list
of `ℚ` entries; `num_obs` are the per-modality observation counts. -/

/-- The loop `for i, m in enumerate(mask)` of `Agent.infer_states`
(lines 392-394), restricted to its effect on the list bound to `self.A`:
`A[i] = m * A[i] + (1 - m) * jnp.ones_like(A[i]) / self.num_obs[i]`. -/
def apply_mask_A (num_obs : List Nat) : List ℚ → Nat → List (List ℚ) → List (List ℚ)
  | [], _, A => A
  | m :: rest, i, A =>
    apply_mask_A num_obs rest (i + 1)
      (A.set i ((A.getD i []).map (fun x => m * x + (1 - m) * (1 / (num_obs.getD i 1 : ℚ)))))

/-- Value of the agent's field `self.A` after `Agent.infer_states` returns
(`agent.py` lines 390-394): unchanged when `mask is None`, otherwise mutated
in place through the alias `A = self.A`. -/
def infer_states_self_A_after (num_obs : List Nat) (A : List (List ℚ)) (mask : Option (List ℚ)) :
    List (List ℚ) :=
  match mask with
  | none => A
  | some ms => apply_mask_A num_obs ms 0 A

/-! ## `sampling_mode` initialisation (`agent.py` lines 188-212) -/

/-- The final value of the field `self.sampling_mode` set by `Agent.__init__`:
line 194 assigns `"full"` when `B_action_dependencies` is given, but line 212
unconditionally re-assigns the constructor argument `sampling_mode`
afterwards, so the argument always wins. -/
def init_sampling_mode (B_action_dependencies : Option (List (List Nat)))
    (sampling_mode : String) : String :=
  let _line194 : Option String := if B_action_dependencies.isSome then some "full" else none
  sampling_mode

/-! ## Action selection (`agent.py` lines 536-561 and `pymdp/jax/control.py`)

`control.sample_action` and `control.sample_policy` live in
`pymdp/jax/control.py`, which is not under `src/`; they are modelled from the
spec (§4.4).  The stochastic draw itself (jax categorical sampling with
precision `alpha`) is an external collaborator and is passed in as the
function argument `draw`. -/

/-- Index of the first maximum of a list of rationals (deterministic argmax,
ties broken by first occurrence). -/
def argmaxGo : List ℚ → Nat → Nat → ℚ → Nat
  | [], _, best, _ => best
  | x :: xs, idx, best, bestv =>
    if bestv < x then argmaxGo xs (idx + 1) idx x else argmaxGo xs (idx + 1) best bestv

/-- Deterministic argmax over a vector of probabilities. -/
def argmaxQ : List ℚ → Nat
  | [] => 0
  | x :: xs => argmaxGo xs 1 0 x

/-- Modelled from the spec: the per-factor action marginal used by
`control.sample_action` — the policy-posterior mass summed over all policies
sharing the same first-step action for factor `f`.  A policy is a list of
steps, each step a list of per-factor action indices. -/
def action_marginal (q_pi : List ℚ) (policies : List (List (List Nat))) (f : Nat) (n : Nat) :
    List ℚ :=
  (List.range n).map (fun a =>
    ((q_pi.zip policies).filter (fun qp => (qp.2.headD []).getD f 0 = a)).foldl
      (fun s qp => s + qp.1) 0)

namespace control

/-- Modelled from the spec: `control.sample_action` (marginal sampling mode,
`pymdp/jax/control.py` not under `src/`): collapse the policy posterior to
per-factor marginals, then per factor take the argmax (deterministic, ties to
the first occurrence) or draw stochastically via the external `draw`
collaborator; the deterministic branch consumes no randomness. -/
def sample_action (draw : List ℚ → ℚ → Nat → Nat) (q_pi : List ℚ)
    (policies : List (List (List Nat))) (num_controls : List Nat)
    (action_selection : String) (alpha : ℚ) (rng_key : Option Nat) : List Nat :=
  (List.range num_controls.length).map (fun f =>
    let marg := action_marginal q_pi policies f (num_controls.getD f 0)
    if action_selection = "deterministic" then argmaxQ marg
    else draw marg alpha (rng_key.getD 0))

/-- Modelled from the spec: `control.sample_policy` (full sampling mode,
`pymdp/jax/control.py` not under `src/`): select a policy index from `q_pi`
(argmax when deterministic, external `draw` when stochastic) and return the
selected policy's first-step multi-factor action; the deterministic branch
consumes no randomness. -/
def sample_policy (draw : List ℚ → ℚ → Nat → Nat) (q_pi : List ℚ)
    (policies : List (List (List Nat))) (_num_controls : List Nat)
    (action_selection : String) (alpha : ℚ) (rng_key : Option Nat) : List Nat :=
  let idx := if action_selection = "deterministic" then argmaxQ q_pi
             else draw q_pi alpha (rng_key.getD 0)
  (policies.getD idx []).headD []

end control

/-- `Agent.sample_action` (`agent.py` lines 536-561): raise `ValueError` when
stochastic selection is requested without a random key; otherwise dispatch on
`sampling_mode` to `control.sample_action` (marginal) or
`control.sample_policy` (full).  Any other `sampling_mode` leaves the local
variable `action` unbound, which raises `UnboundLocalError` at the return. -/
def Agent.sample_action (draw : List ℚ → ℚ → Nat → Nat) (sampling_mode action_selection : String)
    (policies : List (List (List Nat))) (num_controls : List Nat) (alpha : ℚ)
    (q_pi : List ℚ) (rng_key : Option Nat) : Except String (List Nat) :=
  if rng_key = none ∧ action_selection = "stochastic" then
    .error "Please provide a random number generator key to sample actions stochastically"
  else if sampling_mode = "marginal" then
    .ok (control.sample_action draw q_pi policies num_controls action_selection alpha rng_key)
  else if sampling_mode = "full" then
    .ok (control.sample_policy draw q_pi policies num_controls action_selection alpha rng_key)
  else
    .error "UnboundLocalError"

/-! ## Construction-time validation (`agent.py` lines 703-734) -/

/-- Errors that `Agent._validate` (and the Python runtime) can raise.  The
assertion errors carry the modality/factor index that the f-string error
message names. -/
inductive PyErr
  /-- Python `IndexError: list index out of range`. -/
  | indexError
  /-- Python `ValueError` from `max` applied to an empty sequence. -/
  | valueError
  /-- line 706: trailing dims of `A[m]` do not match `A_dependencies[m]`. -/
  | assertA (m : Nat)
  /-- line 710: trailing dims of `pA[m]` do not match `A_dependencies[m]`. -/
  | assertPA (m : Nat)
  /-- line 713: `max(A_dependencies[m]) > num_factors - 1`. -/
  | dependenciesA (m : Nat)
  /-- line 719: all-but-final trailing dims of `B[f]` mismatch. -/
  | assertB (f : Nat)
  /-- line 723: all-but-final trailing dims of `pB[f]` mismatch. -/
  | assertPB (f : Nat)
  /-- line 727: `max(B_dependencies[f]) > num_factors - 1`. -/
  | dependenciesB (f : Nat)
  /-- line 732: a declared control factor has at most one action. -/
  | controlIdx
deriving DecidableEq

/-- Python list indexing `xs[i]`: a negative index wraps around
(`xs[-k]` is `xs[len(xs) - k]`), an index out of `[-len, len)` raises
`IndexError`. -/
def pyIdx {γ : Type} [Inhabited γ] (xs : List γ) (i : Int) : Except PyErr γ :=
  if i < -(xs.length : Int) ∨ (xs.length : Int) ≤ i then .error .indexError
  else if 0 ≤ i then .ok (xs.getD i.toNat default)
  else .ok (xs.getD (i + xs.length).toNat default)

/-- Python `max` over a list of ints: `ValueError` on the empty list. -/
def maxE : List Int → Except PyErr Int
  | [] => .error .valueError
  | x :: xs => .ok (xs.foldl max x)

/-- The elementwise lookup `tuple(self.num_states[f] for f in deps)`
(lines 705 and 718); the first out-of-range index raises. -/
def factorDims (num_states : List Nat) : List Int → Except PyErr (List Nat)
  | [] => .ok []
  | d :: rest =>
    match pyIdx num_states d with
    | .error e => .error e
    | .ok v =>
      match factorDims num_states rest with
      | .error e => .error e
      | .ok vs => .ok (v :: vs)

/-- The data `Agent._validate` reads: modality/factor counts, state and
control counts, the (batched) shapes of the model tensors, and the dependency
declarations (Python ints, hence `Int`). -/
structure ValidateCtx where
  num_modalities : Nat
  num_factors : Nat
  num_states : List Nat
  num_controls : List Nat
  A_shapes : List (List Nat)
  pA_shapes : Option (List (List Nat))
  B_shapes : List (List Nat)
  pB_shapes : Option (List (List Nat))
  A_dependencies : List (List Int)
  B_dependencies : List (List Int)
  control_fac_idx : List Int
deriving DecidableEq

/-- The dependency-range assertion for modality `m` (`agent.py` line 713):
`max(self.A_dependencies[m]) <= self.num_factors - 1`. -/
def checkA_max (ctx : ValidateCtx) (m : Nat) : Except PyErr Unit :=
  match pyIdx ctx.A_dependencies (m : Int) with
  | .error e => .error e
  | .ok deps =>
    match maxE deps with
    | .error e => .error e
    | .ok mx => if mx ≤ (ctx.num_factors : Int) - 1 then .ok () else .error (.dependenciesA m)

/-- The per-modality body of the first loop of `Agent._validate`
(lines 704-715): compute `factor_dims`, compare `A[m].shape[2:]` (and
`pA[m].shape[2:]` when `pA` is present) against it, then check the dependency
range. -/
def checkA (ctx : ValidateCtx) (m : Nat) : Except PyErr Unit :=
  match pyIdx ctx.A_dependencies (m : Int) with
  | .error e => .error e
  | .ok deps =>
    match factorDims ctx.num_states deps with
    | .error e => .error e
    | .ok dims =>
      match pyIdx ctx.A_shapes (m : Int) with
      | .error e => .error e
      | .ok ash =>
        if ash.drop 2 ≠ dims then .error (.assertA m)
        else
          match ctx.pA_shapes with
          | some pas =>
            match pyIdx pas (m : Int) with
            | .error e => .error e
            | .ok pash =>
              if pash.drop 2 ≠ dims then .error (.assertPA m) else checkA_max ctx m
          | none => checkA_max ctx m

/-- The dependency-range assertion for factor `f` (`agent.py` lines 726-729),
guarded by `len(self.B_dependencies[f]) != 0`. -/
def checkB_max (ctx : ValidateCtx) (f : Nat) : Except PyErr Unit :=
  match pyIdx ctx.B_dependencies (f : Int) with
  | .error e => .error e
  | .ok deps =>
    if deps = [] then .ok ()
    else
      match maxE deps with
      | .error e => .error e
      | .ok mx => if mx ≤ (ctx.num_factors : Int) - 1 then .ok () else .error (.dependenciesB f)

/-- The per-factor body of the second loop of `Agent._validate`
(lines 717-729): compare `B[f].shape[2:-1]` (and `pB[f].shape[2:-1]` when
present) against the dependency dims, then check the dependency range. -/
def checkB (ctx : ValidateCtx) (f : Nat) : Except PyErr Unit :=
  match pyIdx ctx.B_dependencies (f : Int) with
  | .error e => .error e
  | .ok deps =>
    match factorDims ctx.num_states deps with
    | .error e => .error e
    | .ok dims =>
      match pyIdx ctx.B_shapes (f : Int) with
      | .error e => .error e
      | .ok bsh =>
        if (bsh.drop 2).dropLast ≠ dims then .error (.assertB f)
        else
          match ctx.pB_shapes with
          | some pbs =>
            match pyIdx pbs (f : Int) with
            | .error e => .error e
            | .ok pbsh =>
              if (pbsh.drop 2).dropLast ≠ dims then .error (.assertPB f) else checkB_max ctx f
          | none => checkB_max ctx f

/-- The third loop of `Agent._validate` (lines 731-734): every declared
control factor must have more than one action. -/
def checkCtl (ctx : ValidateCtx) : List Int → Except PyErr Unit
  | [] => .ok ()
  | idx :: rest =>
    match pyIdx ctx.num_controls idx with
    | .error e => .error e
    | .ok nc => if 1 < nc then checkCtl ctx rest else .error .controlIdx

/-- Run `step m` for `m` in `range(start, start + count)`, stopping at the
first raised error — the Python `for m in range(n)` loop over asserting
bodies. -/
def checkFrom (step : Nat → Except PyErr Unit) : Nat → Nat → Except PyErr Unit
  | _, 0 => .ok ()
  | m, k + 1 =>
    match step m with
    | .error e => .error e
    | .ok _ => checkFrom step (m + 1) k

/-- `Agent._validate` (`agent.py` lines 703-734), called at the end of
`Agent.__init__` (line 291): a raised error aborts construction, so no agent
value is produced unless `validate` returns `ok`. -/
def validate (ctx : ValidateCtx) : Except PyErr Unit :=
  match checkFrom (checkA ctx) 0 ctx.num_modalities with
  | .error e => .error e
  | .ok _ =>
    match checkFrom (checkB ctx) 0 ctx.num_factors with
    | .error e => .error e
    | .ok _ => checkCtl ctx ctx.control_fac_idx

/-- A model whose `A[0]` trailing shape `[5]` mismatches the state count `[2]`
declared through `A_dependencies[0] = [0]`; instantiates the C5 scenario. -/
def ctxShapeMismatch : ValidateCtx :=
  { num_modalities := 1, num_factors := 1, num_states := [2], num_controls := [2],
    A_shapes := [[1, 3, 5]], pA_shapes := none, B_shapes := [[1, 2, 2, 2]], pB_shapes := none,
    A_dependencies := [[0]], B_dependencies := [[0]], control_fac_idx := [] }

/-- A model with the negative dependency index `-1` in `A_dependencies[0]`:
Python wraps it to the last factor, whose state count `3` matches `A[0]`'s
trailing shape, so `_validate` succeeds although `-1 ∉ [0, num_factors)`. -/
def ctxNegDep : ValidateCtx :=
  { num_modalities := 1, num_factors := 1, num_states := [3], num_controls := [2],
    A_shapes := [[1, 2, 3]], pA_shapes := none, B_shapes := [[1, 3, 3, 2]], pB_shapes := none,
    A_dependencies := [[-1]], B_dependencies := [[0]], control_fac_idx := [0] }

/-- A model with the out-of-range dependency index `5 ≥ num_factors = 1`:
computing the factor dims raises `IndexError`, so construction fails. -/
def ctxBigDep : ValidateCtx :=
  { num_modalities := 1, num_factors := 1, num_states := [3], num_controls := [2],
    A_shapes := [[1, 2, 3]], pA_shapes := none, B_shapes := [[1, 3, 3, 2]], pB_shapes := none,
    A_dependencies := [[5]], B_dependencies := [[0]], control_fac_idx := [0] }

/-! ## `infer_parameters` (`agent.py` lines 496-534)

The learning / maths / control collaborators
(`learning.update_obs_likelihood_dirichlet`,
`learning.update_state_likelihood_dirichlet`,
`maths.dirichlet_expected_value`, `control.generate_I_matrix`, `jax.nn.one_hot`)
live outside `src/`; they are passed in as function arguments, so the theorems
hold for every behaviour of these collaborators.  `α` is the type of one
tensor leaf, `β` the type of the raw belief/outcome/action inputs. -/

/-- The pytree leaves and static fields of `Agent` that `infer_parameters`
reads or writes. -/
structure AgentModel (α : Type) where
  A : List α
  B : List α
  C : List α
  D : List α
  E : α
  pA : Option (List α)
  pB : Option (List α)
  H : Option (List α)
  I : List α
  gamma : α
  alpha : α
  inductive_threshold : α
  inductive_epsilon : α
  inductive_depth : Nat
  use_inductive : Bool
  learn_A : Bool
  learn_B : Bool
  learn_C : Bool
  learn_D : Bool
  learn_E : Bool
  A_dependencies : List (List Nat)
  B_dependencies : List (List Nat)
  num_obs : List Nat
  num_controls : List Nat
deriving DecidableEq

/-- `Agent.infer_parameters` (`agent.py` lines 496-534): a functional update
via `equinox.tree_at`.  When `learn_A`, replace `A`/`pA` with the Dirichlet
update and its expected value; when `learn_B`, additionally replace `B`/`pB`
and recompute `I` from the new expected `B` when inductive inference is active
(`self.use_inductive and self.H is not None`), otherwise carry `self.I` over.
The `assert` on line 509 is embedded as the boolean collaborator
`len_check`; a failed assert raises, so no agent is returned.  The `learn_C`,
`learn_D`, `learn_E` hooks are commented out in the source (lines 524-532) and
update nothing. -/
def Agent.infer_parameters {α β : Type}
    (update_obs_likelihood_dirichlet : Option (List α) → β → β → List (List Nat) → ℚ → List α)
    (update_state_likelihood_dirichlet : Option (List α) → β → List β → List (List Nat) → ℚ → List α)
    (dirichlet_expected_value : α → α)
    (generate_I_matrix : List α → List α → α → Nat → List α)
    (one_hot_seq : β → List Nat → β)
    (one_hot_actions : List β → List Nat → List β)
    (split_last_axis : β → List β)
    (len_check : β → List β → Bool)
    (self : AgentModel α)
    (beliefs_A : β) (outcomes : β) (actions : β) (beliefs_B : Option β)
    (lr_pA lr_pB : ℚ) : Except String (AgentModel α) :=
  let agent := self
  let agent :=
    if self.learn_A then
      let o_vec_seq := one_hot_seq outcomes self.num_obs
      let qA := update_obs_likelihood_dirichlet self.pA o_vec_seq beliefs_A self.A_dependencies lr_pA
      let E_qA := qA.map dirichlet_expected_value
      { agent with A := E_qA, pA := some qA }
    else agent
  if self.learn_B then
    let beliefs_B2 := beliefs_B.getD beliefs_A
    let actions_seq := split_last_axis actions
    if len_check beliefs_B2 actions_seq = false then
      .error "AssertionError"
    else
      let actions_onehot := one_hot_actions actions_seq self.num_controls
      let qB := update_state_likelihood_dirichlet self.pB beliefs_B2 actions_onehot
        self.B_dependencies lr_pB
      let E_qB := qB.map dirichlet_expected_value
      let I_updated :=
        match self.use_inductive, self.H with
        | true, some hs => generate_I_matrix hs E_qB self.inductive_threshold self.inductive_depth
        | _, _ => self.I
      .ok { agent with B := E_qB, pB := some qB, I := I_updated }
  else
    .ok agent

/-! ## Inductive matrix initialisation (`agent.py` lines 267-272) -/

/-- The error raised by `Agent.__init__` when it reads `self.H` too early. -/
inductive InitErr
  /-- Python `AttributeError`: `self.H` is read at line 267 but only assigned
  at line 279. -/
  | attributeErrorH
deriving DecidableEq

/-- The initialisation of `I` in `Agent.__init__` (lines 267-272).  The
condition on line 267 is `self.use_inductive and self.H is not None`; at that
point of `__init__` the field `self.H` has not been assigned yet (it is set
only at line 279), so whenever `use_inductive` is true the attribute read
raises `AttributeError` and construction aborts — the `generate_I_matrix`
branch (line 268) and the explicit-`I` branch (lines 269-270) are unreachable.
When `use_inductive` is false the `and` short-circuits and `I` becomes
`jnp.expand_dims(jnp.zeros_like(x), 1)` for each prior `D[f]` (each `D[f]`
embedded as its batch × state matrix of `ℚ` entries). -/
def init_I (use_inductive : Bool) (D : List (List (List ℚ))) :
    Except InitErr (List (List (List (List ℚ)))) :=
  if use_inductive then
    .error .attributeErrorH
  else
    .ok (D.map (fun d => d.map (fun row => [row.map (fun _ => (0 : ℚ))])))

/-! ## Default preference and prior tensors (`agent.py` lines 252-260) -/

/-- The default preference tensors built by `Agent.__init__` when `C is None`
(line 253): `C[m] = jnp.ones((batch_size, num_obs[m])) / num_obs[m]`. -/
def default_C (batch_size : Nat) (num_obs : List Nat) : List (List (List ℚ)) :=
  num_obs.map (fun no => List.replicate batch_size (List.replicate no (1 / (no : ℚ))))

/-- The default prior tensors built by `Agent.__init__` when `D is None`
(line 258): `D[f] = jnp.ones((batch_size, num_states[f])) / num_states[f]`. -/
def default_D (batch_size : Nat) (num_states : List Nat) : List (List (List ℚ)) :=
  num_states.map (fun ns => List.replicate batch_size (List.replicate ns (1 / (ns : ℚ))))

/-- A concrete agent value (over `Nat` leaves) with every learning flag off;
used to evaluate `Agent.infer_parameters` at a concrete input. -/
def agentW : AgentModel Nat :=
  { A := [0], B := [0], C := [5], D := [6], E := 7, pA := none, pB := none, H := none,
    I := [0], gamma := 0, alpha := 0, inductive_threshold := 0, inductive_epsilon := 0,
    inductive_depth := 0, use_inductive := false, learn_A := false, learn_B := false,
    learn_C := false, learn_D := false, learn_E := false, A_dependencies := [],
    B_dependencies := [], num_obs := [], num_controls := [] }

/-- A concrete agent value with `learn_B` and `use_inductive` on and goal
vectors `H` present; used to evaluate the inductive-matrix recomputation in
`Agent.infer_parameters` at a concrete input. -/
def agentW2 : AgentModel Nat :=
  { A := [0], B := [0], C := [5], D := [6], E := 7, pA := none, pB := none, H := some [9],
    I := [4], gamma := 0, alpha := 0, inductive_threshold := 0, inductive_epsilon := 0,
    inductive_depth := 0, use_inductive := true, learn_A := false, learn_B := true,
    learn_C := false, learn_D := false, learn_E := false, A_dependencies := [],
    B_dependencies := [], num_obs := [], num_controls := [] }

/-! ## Theorems

### Mixed-radix round-trip lemmas -/

theorem listProd_pos {ds : List Nat} (h : ∀ d ∈ ds, 0 < d) : 0 < listProd ds := by
  induction ds with
  | nil => simp [listProd]
  | cons d ds ih =>
    simp only [listProd]
    exact Nat.mul_pos (h d (List.mem_cons_self _ _))
      (ih (fun x hx => h x (List.mem_cons_of_mem _ hx)))

theorem forall₂_lt_pos {a ds : List Nat} (h : List.Forall₂ (· < ·) a ds) :
    ∀ d ∈ ds, 0 < d := by
  induction h with
  | nil => simp
  | @cons x d a2 ds2 hx _hrest ih =>
    intro e he
    rcases List.mem_cons.mp he with h1 | h2
    · subst h1; omega
    · exact ih e h2

theorem get_combination_index_lt {a ds : List Nat} (h : List.Forall₂ (· < ·) a ds) :
    get_combination_index a ds < listProd ds := by
  induction h with
  | nil => simp [get_combination_index, listProd]
  | @cons x d a2 ds2 hx hrest ih =>
    simp only [get_combination_index, listProd]
    calc x * listProd ds2 + get_combination_index a2 ds2
        < (x + 1) * listProd ds2 := by
          have := ih
          ring_nf
          omega
      _ ≤ d * listProd ds2 := Nat.mul_le_mul_right _ hx

theorem index_to_combination_get {a ds : List Nat} (h : List.Forall₂ (· < ·) a ds) :
    index_to_combination (get_combination_index a ds) ds = a := by
  induction h with
  | nil => rfl
  | @cons x d a2 ds2 hx hrest ih =>
    have hP : 0 < listProd ds2 := listProd_pos (forall₂_lt_pos hrest)
    have hr : get_combination_index a2 ds2 < listProd ds2 := get_combination_index_lt hrest
    simp only [get_combination_index, index_to_combination]
    have hdiv : (x * listProd ds2 + get_combination_index a2 ds2) / listProd ds2 = x := by
      rw [Nat.add_comm, Nat.add_mul_div_right _ _ hP, Nat.div_eq_of_lt hr, Nat.zero_add]
    have hmod : (x * listProd ds2 + get_combination_index a2 ds2) % listProd ds2
        = get_combination_index a2 ds2 := by
      rw [Nat.add_comm, Nat.add_mul_mod_self_right, Nat.mod_eq_of_lt hr]
    rw [hdiv, hmod, ih]

theorem get_index_to_combination {ds : List Nat} (hpos : ∀ d ∈ ds, 0 < d) :
    ∀ i, i < listProd ds → get_combination_index (index_to_combination i ds) ds = i := by
  induction ds with
  | nil =>
    intro i hi
    simp only [listProd] at hi
    interval_cases i
    rfl
  | cons d ds ih =>
    intro i hi
    have hP : 0 < listProd ds := listProd_pos (fun x hx => hpos x (List.mem_cons_of_mem _ hx))
    simp only [index_to_combination, get_combination_index]
    rw [ih (fun x hx => hpos x (List.mem_cons_of_mem _ hx)) (i % listProd ds) (Nat.mod_lt _ hP)]
    rw [Nat.mul_comm]
    exact Nat.div_add_mod i (listProd ds)

theorem index_to_combination_length : ∀ (i : Nat) (ds : List Nat),
    (index_to_combination i ds).length = ds.length
  | _, [] => rfl
  | i, _d :: ds => by
    simp only [index_to_combination, List.length_cons]
    rw [index_to_combination_length]

/-! ### Scatter/gather lemmas for `setMulti` and `decodeGo` -/

theorem setMulti_length : ∀ (ps vs xs : List Nat), (setMulti xs ps vs).length = xs.length := by
  intro ps
  induction ps with
  | nil => intro vs xs; rfl
  | cons p ps ih =>
    intro vs xs
    cases vs with
    | nil => rfl
    | cons v vs =>
      simp only [setMulti]
      rw [ih vs (xs.set p v), List.length_set]

theorem setMulti_getD_notMem : ∀ (ps vs xs : List Nat) (j : Nat), j ∉ ps →
    (setMulti xs ps vs).getD j 0 = xs.getD j 0 := by
  intro ps
  induction ps with
  | nil => intro vs xs j _; rfl
  | cons p ps ih =>
    intro vs xs j hj
    cases vs with
    | nil => rfl
    | cons v vs =>
      simp only [setMulti]
      rw [ih vs (xs.set p v) j (fun h => hj (List.mem_cons_of_mem _ h))]
      simp only [List.getD_eq_getElem?_getD]
      rw [List.getElem?_set_ne (by rintro rfl; exact hj (List.mem_cons_self _ _))]

theorem setMulti_getD_fun (t : Nat → Nat) : ∀ {ps vs : List Nat},
    List.Forall₂ (fun p v => v = t p) ps vs → ∀ (xs : List Nat),
    (∀ p ∈ ps, p < xs.length) →
    ∀ j, (setMulti xs ps vs).getD j 0 = if j ∈ ps then t j else xs.getD j 0 := by
  intro ps vs h
  induction h with
  | nil => intro xs _ j; simp [setMulti]
  | @cons p v ps2 vs2 hpv _hrest ih =>
    intro xs hlen j
    simp only [setMulti]
    rw [ih (xs.set p v)
      (fun q hq => by rw [List.length_set]; exact hlen q (List.mem_cons_of_mem _ hq))]
    by_cases hjp : j ∈ ps2
    · simp [hjp, List.mem_cons]
    · by_cases hje : j = p
      · subst hje
        simp only [hjp, if_false, List.mem_cons, true_or, if_pos rfl, if_true]
        simp only [List.getD_eq_getElem?_getD]
        rw [List.getElem?_set_self (hlen j (List.mem_cons_self _ _))]
        simp [hpv]
      · simp only [hjp, if_false, List.mem_cons, hje, false_or]
        simp only [List.getD_eq_getElem?_getD]
        rw [List.getElem?_set_ne (fun h => hje h.symm)]

theorem setMulti_getD_nodup : ∀ (ps vs xs : List Nat) (k : Nat), k < ps.length → ps.Nodup →
    vs.length = ps.length → (∀ p ∈ ps, p < xs.length) →
    (setMulti xs ps vs).getD (ps.getD k 0) 0 = vs.getD k 0 := by
  intro ps
  induction ps with
  | nil => intro vs xs k hk; simp at hk
  | cons p ps ih =>
    intro vs xs k hk hnd hvlen hbound
    cases vs with
    | nil => simp at hvlen
    | cons v vs =>
      simp only [setMulti]
      cases k with
      | zero =>
        simp only [List.getD_cons_zero]
        rw [setMulti_getD_notMem ps vs _ p (List.nodup_cons.mp hnd).1]
        simp only [List.getD_eq_getElem?_getD]
        rw [List.getElem?_set_self (hbound p (List.mem_cons_self _ _))]
        rfl
      | succ k =>
        simp only [List.getD_cons_succ]
        exact ih vs (xs.set p v) k (by simp only [List.length_cons] at hk; omega)
          (List.nodup_cons.mp hnd).2 (by simpa using hvlen)
          (fun q hq => by rw [List.length_set]; exact hbound q (List.mem_cons_of_mem _ hq))

theorem decodeGo_length : ∀ (gs : List (ActionMap × Nat)) (acc : List Nat),
    (decodeGo gs acc).length = acc.length := by
  intro gs
  induction gs with
  | nil => intro acc; rfl
  | cons g gs ih =>
    intro acc
    obtain ⟨am, v⟩ := g
    simp only [decodeGo]
    split
    · exact ih acc
    · rw [ih, setMulti_length]

theorem decodeGo_getD_notCover : ∀ (gs : List (ActionMap × Nat)) (acc : List Nat) (j : Nat),
    (∀ g ∈ gs, j ∉ g.1.multi_dependency) →
    (decodeGo gs acc).getD j 0 = acc.getD j 0 := by
  intro gs
  induction gs with
  | nil => intro acc j _; rfl
  | cons g gs ih =>
    intro acc j hj
    obtain ⟨am, v⟩ := g
    simp only [decodeGo]
    split
    · exact ih acc j (fun g hg => hj g (List.mem_cons_of_mem _ hg))
    · rw [ih _ j (fun g hg => hj g (List.mem_cons_of_mem _ hg))]
      exact setMulti_getD_notMem _ _ _ _ (hj (am, v) (List.mem_cons_self _ _))

theorem decodeGo_getD_cover (t : Nat → Nat) : ∀ (gs : List (ActionMap × Nat)) (acc : List Nat),
    (∀ g ∈ gs, List.Forall₂ (fun p v => v = t p) g.1.multi_dependency
        (index_to_combination g.2 g.1.multi_dims)) →
    (∀ g ∈ gs, ∀ p ∈ g.1.multi_dependency, p < acc.length) →
    ∀ j, (∃ g ∈ gs, j ∈ g.1.multi_dependency) →
    (decodeGo gs acc).getD j 0 = t j := by
  intro gs
  induction gs with
  | nil =>
    intro acc _ _ j hj
    simp at hj
  | cons g gs ih =>
    intro acc hfa hlt j hj
    obtain ⟨am, v⟩ := g
    simp only [decodeGo]
    split
    · rename_i hdep
      apply ih acc (fun g hg => hfa g (List.mem_cons_of_mem _ hg))
        (fun g hg => hlt g (List.mem_cons_of_mem _ hg))
      rcases hj with ⟨g, hg, hjg⟩
      rcases List.mem_cons.mp hg with h1 | h2
      · exfalso; rw [h1] at hjg; simp only [hdep] at hjg; simp at hjg
      · exact ⟨g, h2, hjg⟩
    · rename_i hdep
      by_cases hrest : ∃ g ∈ gs, j ∈ g.1.multi_dependency
      · exact ih _ (fun g hg => hfa g (List.mem_cons_of_mem _ hg))
          (fun g hg p hp => by
            rw [setMulti_length]; exact hlt g (List.mem_cons_of_mem _ hg) p hp) j hrest
      · rw [decodeGo_getD_notCover gs _ j (fun g hg hjg => hrest ⟨g, hg, hjg⟩)]
        have hmem : j ∈ am.multi_dependency := by
          rcases hj with ⟨g, hg, hjg⟩
          rcases List.mem_cons.mp hg with h1 | h2
          · rw [h1] at hjg; exact hjg
          · exact absurd ⟨g, h2, hjg⟩ hrest
        rw [setMulti_getD_fun t (hfa (am, v) (List.mem_cons_self _ _)) acc
          (hlt (am, v) (List.mem_cons_self _ _)) j]
        simp [hmem]

theorem decodeGo_getD_group : ∀ (gs : List (ActionMap × Nat)) (acc : List Nat) (f : Nat)
    (hf : f < gs.length),
    (∀ g ∈ gs, g.1.multi_dims.length = g.1.multi_dependency.length) →
    (∀ g ∈ gs, g.1.multi_dependency.Nodup) →
    List.Pairwise (fun g1 g2 => ∀ x ∈ g1.1.multi_dependency, x ∉ g2.1.multi_dependency) gs →
    (∀ g ∈ gs, ∀ p ∈ g.1.multi_dependency, p < acc.length) →
    ∀ k, k < (gs.get ⟨f, hf⟩).1.multi_dependency.length →
    (decodeGo gs acc).getD ((gs.get ⟨f, hf⟩).1.multi_dependency.getD k 0) 0
      = (index_to_combination (gs.get ⟨f, hf⟩).2 (gs.get ⟨f, hf⟩).1.multi_dims).getD k 0 := by
  intro gs
  induction gs with
  | nil => intro acc f hf; simp at hf
  | cons g gs ih =>
    intro acc f hf hdl hnd hpw hlt k hk
    obtain ⟨am, v⟩ := g
    cases f with
    | zero =>
      simp only [List.get] at hk ⊢
      have hdep : am.multi_dependency ≠ [] := by
        intro h; rw [h] at hk; simp at hk
      simp only [decodeGo]
      rw [if_neg hdep]
      have hmemk : am.multi_dependency.getD k 0 ∈ am.multi_dependency := by
        rw [List.getD_eq_getElem _ _ hk]
        exact List.getElem_mem hk
      rw [decodeGo_getD_notCover gs _ _ (fun g2 hg2 =>
        (List.pairwise_cons.mp hpw).1 g2 hg2 _ hmemk)]
      exact setMulti_getD_nodup _ _ _ k hk (hnd (am, v) (List.mem_cons_self _ _))
        (by rw [index_to_combination_length, hdl (am, v) (List.mem_cons_self _ _)])
        (fun p hp => hlt (am, v) (List.mem_cons_self _ _) p hp)
    | succ f =>
      have hf2 : f < gs.length := by simpa using hf
      simp only [List.get_cons_succ]
      simp only [decodeGo]
      split
      · exact ih acc f hf2 (fun g hg => hdl g (List.mem_cons_of_mem _ hg))
          (fun g hg => hnd g (List.mem_cons_of_mem _ hg)) (List.Pairwise.of_cons hpw)
          (fun g hg => hlt g (List.mem_cons_of_mem _ hg)) k hk
      · exact ih _ f hf2 (fun g hg => hdl g (List.mem_cons_of_mem _ hg))
          (fun g hg => hnd g (List.mem_cons_of_mem _ hg)) (List.Pairwise.of_cons hpw)
          (fun g hg p hp => by
            rw [setMulti_length]; exact hlt g (List.mem_cons_of_mem _ hg) p hp) k hk

/-! ### Structural lemmas about `mk_action_maps` -/

theorem zip_map_self {α β : Type} (g : α → β) : ∀ (l : List α),
    l.zip (l.map g) = l.map (fun x => (x, g x)) := by
  intro l
  induction l with
  | nil => rfl
  | cons x l ih => simp only [List.map_cons, List.zip_cons_cons, ih]

theorem mk_action_maps_map_dep : ∀ (ncm : List Nat) (deps : List (List Nat)) (i : Nat),
    (mk_action_maps ncm deps i).map (fun am => am.multi_dependency) = deps := by
  intro ncm deps
  induction deps with
  | nil => intro i; rfl
  | cons dep rest ih =>
    intro i
    simp only [mk_action_maps, List.map_cons, ih]
    by_cases h : dep = []
    · simp [h]
    · simp [h]

theorem mk_action_maps_length (ncm : List Nat) (deps : List (List Nat)) (i : Nat) :
    (mk_action_maps ncm deps i).length = deps.length := by
  have h := congrArg List.length (mk_action_maps_map_dep ncm deps i)
  simpa using h

theorem mk_action_maps_dims : ∀ (ncm : List Nat) (deps : List (List Nat)) (i : Nat),
    ∀ am ∈ mk_action_maps ncm deps i,
    am.multi_dims = am.multi_dependency.map (fun d => ncm.getD d 0) := by
  intro ncm deps
  induction deps with
  | nil => intro i am ham; simp [mk_action_maps] at ham
  | cons dep rest ih =>
    intro i am ham
    simp only [mk_action_maps] at ham
    rcases List.mem_cons.mp ham with h1 | h2
    · subst h1
      by_cases h : dep = [] <;> simp [h]
    · exact ih (i + 1) am h2

theorem mk_action_maps_dep_mem : ∀ (ncm : List Nat) (deps : List (List Nat)) (i : Nat),
    ∀ am ∈ mk_action_maps ncm deps i, am.multi_dependency ∈ deps := by
  intro ncm deps i am ham
  have h := mk_action_maps_map_dep ncm deps i
  rw [← h]
  exact List.mem_map_of_mem _ ham

/-! ### Round-trip of `encode_multi_actions` / `decode_multi_actions` -/

theorem decode_encode_multi (ncm : List Nat) (deps : List (List Nat)) (a : List Nat)
    (hlen : a.length = ncm.length)
    (hvalid : ∀ dep ∈ deps, ∀ d ∈ dep, d < ncm.length)
    (hbound : ∀ j, j < ncm.length → a.getD j 0 < ncm.getD j 0)
    (hcov : ∀ j, j < ncm.length → ∃ dep ∈ deps, j ∈ dep) :
    decode_multi_actions (mk_action_maps ncm deps 0) ncm.length
      (encode_multi_actions (mk_action_maps ncm deps 0) a) = a := by
  unfold decode_multi_actions encode_multi_actions
  rw [zip_map_self]
  have hmem_valid : ∀ am ∈ mk_action_maps ncm deps 0, ∀ d ∈ am.multi_dependency,
      d < ncm.length :=
    fun am ham => hvalid am.multi_dependency (mk_action_maps_dep_mem ncm deps 0 am ham)
  have hforall : ∀ g ∈ (mk_action_maps ncm deps 0).map (fun am => (am,
        if am.multi_dependency = [] then 0
        else get_combination_index (am.multi_dependency.map fun d => a.getD d 0) am.multi_dims)),
      List.Forall₂ (fun p v => v = a.getD p 0) g.1.multi_dependency
        (index_to_combination g.2 g.1.multi_dims) := by
    intro g hg
    rcases List.mem_map.mp hg with ⟨am, ham, hgeq⟩
    subst hgeq
    by_cases hdep : am.multi_dependency = []
    · rw [if_pos hdep]
      rw [mk_action_maps_dims ncm deps 0 am ham, hdep]
      exact List.Forall₂.nil
    · rw [if_neg hdep]
      have hdims := mk_action_maps_dims ncm deps 0 am ham
      have hlt : List.Forall₂ (· < ·) (am.multi_dependency.map fun d => a.getD d 0)
          am.multi_dims := by
        rw [hdims]
        simp only [List.forall₂_map_left_iff, List.forall₂_map_right_iff]
        rw [List.forall₂_same]
        intro d hd
        exact hbound d (hmem_valid am ham d hd)
      rw [index_to_combination_get hlt]
      simp only [List.forall₂_map_right_iff]
      rw [List.forall₂_same]
      intro d _
      rfl
  have hlen2 : (decodeGo ((mk_action_maps ncm deps 0).map fun am => (am,
      if am.multi_dependency = [] then 0
      else get_combination_index (am.multi_dependency.map fun d => a.getD d 0) am.multi_dims))
      (List.replicate ncm.length 0)).length = a.length := by
    rw [decodeGo_length, List.length_replicate, hlen]
  apply List.ext_getElem hlen2
  intro j h1 h2
  have hj : j < ncm.length := by rw [← hlen]; exact h2
  have hcover : ∃ g ∈ (mk_action_maps ncm deps 0).map (fun am => (am,
      if am.multi_dependency = [] then 0
      else get_combination_index (am.multi_dependency.map fun d => a.getD d 0) am.multi_dims)),
      j ∈ g.1.multi_dependency := by
    rcases hcov j hj with ⟨dep, hdep_mem, hjdep⟩
    have : dep ∈ (mk_action_maps ncm deps 0).map (fun am => am.multi_dependency) := by
      rw [mk_action_maps_map_dep]; exact hdep_mem
    rcases List.mem_map.mp this with ⟨am, ham, hameq⟩
    exact ⟨(am, if am.multi_dependency = [] then 0
      else get_combination_index (am.multi_dependency.map fun d => a.getD d 0) am.multi_dims),
      List.mem_map_of_mem _ ham, by rw [hameq]; exact hjdep⟩
  have hwrites := decodeGo_getD_cover (fun j => a.getD j 0) _ (List.replicate ncm.length 0)
    hforall
    (fun g hg p hp => by
      rw [List.length_replicate]
      rcases List.mem_map.mp hg with ⟨am, ham, hgeq⟩
      exact hmem_valid am ham p (by rw [← hgeq] at hp; exact hp))
    j hcover
  rw [← List.getD_eq_getElem _ 0 h1, ← List.getD_eq_getElem _ 0 h2]
  exact hwrites

theorem zip_get {α β : Type} : ∀ (l1 : List α) (l2 : List β) (f : Nat)
    (h : f < (l1.zip l2).length) (h1 : f < l1.length) (h2 : f < l2.length),
    (l1.zip l2).get ⟨f, h⟩ = (l1.get ⟨f, h1⟩, l2.get ⟨f, h2⟩) := by
  intro l1
  induction l1 with
  | nil => intro l2 f h h1; simp at h1
  | cons x l1 ih =>
    intro l2 f h h1 h2
    cases l2 with
    | nil => simp at h2
    | cons y l2 =>
      cases f with
      | zero => rfl
      | succ f =>
        simp only [List.zip_cons_cons, List.get_cons_succ]
        exact ih l2 f _ _ _

theorem decode_zip_group (maps : List ActionMap) (i acc : List Nat) (f : Nat)
    (hmf : f < maps.length) (hif : f < i.length)
    (hdl : ∀ g ∈ maps.zip i, g.1.multi_dims.length = g.1.multi_dependency.length)
    (hnd : ∀ g ∈ maps.zip i, g.1.multi_dependency.Nodup)
    (hpw : List.Pairwise
      (fun g1 g2 : ActionMap × Nat =>
        ∀ x ∈ g1.1.multi_dependency, x ∉ g2.1.multi_dependency) (maps.zip i))
    (hlt : ∀ g ∈ maps.zip i, ∀ p ∈ g.1.multi_dependency, p < acc.length)
    (k : Nat) (hk : k < (maps.get ⟨f, hmf⟩).multi_dependency.length) :
    (decodeGo (maps.zip i) acc).getD ((maps.get ⟨f, hmf⟩).multi_dependency.getD k 0) 0
      = (index_to_combination (i.get ⟨f, hif⟩) (maps.get ⟨f, hmf⟩).multi_dims).getD k 0 := by
  have hzf : f < (maps.zip i).length := by
    rw [List.length_zip]
    omega
  have h := decodeGo_getD_group (maps.zip i) acc f hzf hdl hnd hpw hlt k
  rw [zip_get maps i f hzf hmf hif] at h
  exact h hk

theorem encode_decode_multi (ncm : List Nat) (deps : List (List Nat)) (i : List Nat)
    (hleni : i.length = deps.length)
    (hvalid : ∀ dep ∈ deps, ∀ d ∈ dep, d < ncm.length)
    (hpos : ∀ dep ∈ deps, ∀ d ∈ dep, 0 < ncm.getD d 0)
    (hnd : ∀ dep ∈ deps, dep.Nodup)
    (hdisj : List.Pairwise (fun d1 d2 => ∀ x ∈ d1, x ∉ d2) deps)
    (hbound : ∀ f, f < deps.length → i.getD f 0 <
        (if deps.getD f [] = [] then 1
         else listProd ((deps.getD f []).map (fun d => ncm.getD d 0)))) :
    encode_multi_actions (mk_action_maps ncm deps 0)
      (decode_multi_actions (mk_action_maps ncm deps 0) ncm.length i) = i := by
  have hlenm : (mk_action_maps ncm deps 0).length = deps.length :=
    mk_action_maps_length ncm deps 0
  have hfst := List.map_fst_zip (mk_action_maps ncm deps 0) i (by rw [hlenm, hleni])
  have hg_mem : ∀ g ∈ (mk_action_maps ncm deps 0).zip i, g.1.multi_dependency ∈ deps :=
    fun g hg => mk_action_maps_dep_mem ncm deps 0 g.1 (List.of_mem_zip hg).1
  have hg_dims : ∀ g ∈ (mk_action_maps ncm deps 0).zip i,
      g.1.multi_dims = g.1.multi_dependency.map (fun d => ncm.getD d 0) :=
    fun g hg => mk_action_maps_dims ncm deps 0 g.1 (List.of_mem_zip hg).1
  have hg_pw : List.Pairwise
      (fun g1 g2 : ActionMap × Nat =>
        ∀ x ∈ g1.1.multi_dependency, x ∉ g2.1.multi_dependency)
      ((mk_action_maps ncm deps 0).zip i) := by
    have hmapped : List.Pairwise (fun d1 d2 => ∀ x ∈ d1, x ∉ d2)
        ((mk_action_maps ncm deps 0).map (fun am => am.multi_dependency)) := by
      rw [mk_action_maps_map_dep]
      exact hdisj
    have h1 := List.pairwise_map.mp hmapped
    have hmapped2 : List.Pairwise
        (fun am1 am2 : ActionMap => ∀ x ∈ am1.multi_dependency, x ∉ am2.multi_dependency)
        (((mk_action_maps ncm deps 0).zip i).map Prod.fst) := by
      rw [hfst]
      exact h1
    exact List.pairwise_map.mp hmapped2
  have hlen_enc : (encode_multi_actions (mk_action_maps ncm deps 0)
      (decode_multi_actions (mk_action_maps ncm deps 0) ncm.length i)).length = i.length := by
    unfold encode_multi_actions
    rw [List.length_map, hlenm, hleni]
  apply List.ext_getElem hlen_enc
  intro f hf1 hf2
  have hdf : f < deps.length := by rw [← hleni]; exact hf2
  have hmf : f < (mk_action_maps ncm deps 0).length := by rw [hlenm]; exact hdf
  show (encode_multi_actions (mk_action_maps ncm deps 0)
      (decode_multi_actions (mk_action_maps ncm deps 0) ncm.length i)).get ⟨f, hf1⟩
    = i.get ⟨f, hf2⟩
  have hdep_f : ((mk_action_maps ncm deps 0).get ⟨f, hmf⟩).multi_dependency
      = deps.get ⟨f, hdf⟩ := by
    have h1 := List.get_map (fun am : ActionMap => am.multi_dependency)
      (l := mk_action_maps ncm deps 0) (n := ⟨f, by rw [List.length_map]; exact hmf⟩)
    have h2 := List.get_of_eq (mk_action_maps_map_dep ncm deps 0)
      ⟨f, by rw [List.length_map]; exact hmf⟩
    exact h1.symm.trans h2
  have hmem_f : (mk_action_maps ncm deps 0).get ⟨f, hmf⟩ ∈ mk_action_maps ncm deps 0 :=
    List.get_mem _ f hmf
  have hdims_f := mk_action_maps_dims ncm deps 0 _ hmem_f
  have hiD : i.getD f 0 = i.get ⟨f, hf2⟩ := List.getD_eq_getElem i 0 hf2
  have hdepD : deps.getD f [] = deps.get ⟨f, hdf⟩ := List.getD_eq_getElem deps [] hdf
  have hb := hbound f hdf
  rw [hdepD] at hb
  unfold encode_multi_actions
  rw [List.get_map]
  by_cases hdep : deps.get ⟨f, hdf⟩ = []
  · rw [if_pos hdep] at hb
    rw [if_pos (by rw [hdep_f]; exact hdep)]
    omega
  · rw [if_neg hdep] at hb
    rw [if_neg (by rw [hdep_f]; exact hdep)]
    have hstepA : (deps.get ⟨f, hdf⟩).map (fun d =>
          (decode_multi_actions (mk_action_maps ncm deps 0) ncm.length i).getD d 0)
        = index_to_combination (i.get ⟨f, hf2⟩)
            ((deps.get ⟨f, hdf⟩).map (fun d => ncm.getD d 0)) := by
      apply List.ext_getElem
      · rw [List.length_map, index_to_combination_length, List.length_map]
      intro k hk1 hk2
      have hk : k < (deps.get ⟨f, hdf⟩).length := by rw [List.length_map] at hk1; exact hk1
      simp only [List.getElem_map]
      have hga := decode_zip_group (mk_action_maps ncm deps 0) i
        (List.replicate ncm.length 0) f hmf hf2
        (fun g hg => by rw [hg_dims g hg, List.length_map])
        (fun g hg => hnd _ (hg_mem g hg))
        hg_pw
        (fun g hg p hp => by
          rw [List.length_replicate]
          exact hvalid _ (hg_mem g hg) p hp)
        k (by rw [hdep_f]; exact hk)
      rw [hdims_f, hdep_f] at hga
      unfold decode_multi_actions
      rw [← List.getD_eq_getElem (deps.get ⟨f, hdf⟩) 0 hk, ← List.getD_eq_getElem _ 0 hk2]
      exact hga
    rw [hdims_f, hdep_f, hstepA]
    have hposd : ∀ dd ∈ (deps.get ⟨f, hdf⟩).map (fun d => ncm.getD d 0), 0 < dd := by
      intro dd hdd
      rcases List.mem_map.mp hdd with ⟨d, hd, rfl⟩
      exact hpos _ (List.get_mem deps f hdf) d hd
    rw [← hiD]
    exact get_index_to_combination hposd (i.getD f 0) hb

theorem mk_action_maps_get_dep (ncm : List Nat) (deps : List (List Nat)) (f : Nat)
    (hf : f < deps.length) (hmf : f < (mk_action_maps ncm deps 0).length) :
    ((mk_action_maps ncm deps 0).get ⟨f, hmf⟩).multi_dependency = deps.get ⟨f, hf⟩ := by
  have h1 := List.get_map (fun am : ActionMap => am.multi_dependency)
    (l := mk_action_maps ncm deps 0) (n := ⟨f, by rw [List.length_map]; exact hmf⟩)
  have h2 := List.get_of_eq (mk_action_maps_map_dep ncm deps 0)
    ⟨f, by rw [List.length_map]; exact hmf⟩
  exact h1.symm.trans h2

/-- C2 (amended): for an agent whose `B_action_dependencies` groups form a
partition of the multi-action factors (pairwise disjoint, no repeats inside a
group, jointly covering every factor) — with every referenced factor index in
range and every referenced control count positive — `encode_multi_actions` and
`decode_multi_actions` built from `Agent._flatten_B_action_dims` are exact
mutual inverses on valid multi-action vectors and valid flat action vectors,
and a group with an empty dependency is always encoded to the constant flat
action zero.  (Without disjointness or coverage the round trip fails; see the
counterexample.) -/
theorem multi_action_encode_decode_bijection
    (ncm : List Nat) (deps : List (List Nat)) (a i : List Nat)
    (hlen_a : a.length = ncm.length)
    (hbound_a : ∀ j, j < ncm.length → a.getD j 0 < ncm.getD j 0)
    (hleni : i.length = deps.length)
    (hbound_i : ∀ f, f < deps.length → i.getD f 0 <
        (if deps.getD f [] = [] then 1
         else listProd ((deps.getD f []).map (fun d => ncm.getD d 0))))
    (hvalid : ∀ dep ∈ deps, ∀ d ∈ dep, d < ncm.length)
    (hpos : ∀ dep ∈ deps, ∀ d ∈ dep, 0 < ncm.getD d 0)
    (hnd : ∀ dep ∈ deps, dep.Nodup)
    (hdisj : List.Pairwise (fun d1 d2 => ∀ x ∈ d1, x ∉ d2) deps)
    (hcov : ∀ j, j < ncm.length → ∃ dep ∈ deps, j ∈ dep) :
    decode_multi_actions (mk_action_maps ncm deps 0) ncm.length
        (encode_multi_actions (mk_action_maps ncm deps 0) a) = a
    ∧ encode_multi_actions (mk_action_maps ncm deps 0)
        (decode_multi_actions (mk_action_maps ncm deps 0) ncm.length i) = i
    ∧ ∀ f, f < deps.length → deps.getD f [] = [] →
        (encode_multi_actions (mk_action_maps ncm deps 0) a).getD f 0 = 0 := by
  refine ⟨decode_encode_multi ncm deps a hlen_a hvalid hbound_a hcov,
    encode_decode_multi ncm deps i hleni hvalid hpos hnd hdisj hbound_i, ?_⟩
  intro f hf hdep
  have hmf : f < (mk_action_maps ncm deps 0).length := by
    rw [mk_action_maps_length]; exact hf
  have hd : ((mk_action_maps ncm deps 0).get ⟨f, hmf⟩).multi_dependency = [] := by
    rw [mk_action_maps_get_dep ncm deps f hf hmf, List.get_eq_getElem,
      ← List.getD_eq_getElem deps [] hf]
    exact hdep
  unfold encode_multi_actions
  rw [List.getD_eq_getElem _ 0 (by rw [List.length_map]; exact hmf)]
  simp only [List.getElem_map]
  simp only [List.get_eq_getElem] at hd
  rw [if_pos hd]

/-- The C2 claim as stated is false: for an agent built with overlapping
action-dependency groups `B_action_dependencies = [[0], [0]]` over one
multi-factor with 2 actions, both flat components are valid (the flat
dimensions are `[[2], [2]]`), yet `encode(decode([1, 0])) = [0, 0] ≠ [1, 0]`;
and for a non-covering group `[[1]]` over two multi-factors the valid
multi-action `[1, 0]` satisfies `decode(encode([1, 0])) = [0, 0] ≠ [1, 0]`. -/
theorem multi_action_roundtrip_counterexample :
    ((mk_action_maps [2] [[0], [0]] 0).map (fun am => am.flat_dims) = [[2], [2]])
    ∧ encode_multi_actions (mk_action_maps [2] [[0], [0]] 0)
        (decode_multi_actions (mk_action_maps [2] [[0], [0]] 0) 1 [1, 0]) = [0, 0]
    ∧ ([0, 0] : List Nat) ≠ [1, 0]
    ∧ decode_multi_actions (mk_action_maps [2, 2] [[1]] 0) 2
        (encode_multi_actions (mk_action_maps [2, 2] [[1]] 0) [1, 0]) = [0, 0] := by
  decide

theorem multi_action_encode_decode_bijection_witness :
    decode_multi_actions (mk_action_maps [2, 3] [[0], [1]] 0) 2
        (encode_multi_actions (mk_action_maps [2, 3] [[0], [1]] 0) [1, 2]) = [1, 2]
    ∧ encode_multi_actions (mk_action_maps [2, 3] [[0], [1]] 0)
        (decode_multi_actions (mk_action_maps [2, 3] [[0], [1]] 0) 2 [1, 2]) = [1, 2] := by
  have h := multi_action_encode_decode_bijection [2, 3] [[0], [1]] [1, 2] [1, 2]
    (by decide) (by decide) (by decide) (by decide) (by decide) (by decide) (by decide)
    (by decide) (by decide)
  exact ⟨h.1, h.2.1⟩

theorem getD_replicate_lt {α : Type} (n : Nat) (x : α) (j : Nat) (d : α) (h : j < n) :
    (List.replicate n x).getD j d = x := by
  rw [List.getD_eq_getElem _ _ (by simpa using h)]
  simp

/-! ### C1, C3, C9, C10: evaluations of the construction and inference paths -/

/-- C1: the claim that `self.A` is unchanged by every `infer_states` call is
right about the intent (spec §5 immutability) but wrong about the code: with a
per-modality mask, the alias `A = self.A` (line 390) makes `A[i] = ...`
(line 394) mutate the agent's own likelihood list.  For one modality with two
observations, `A = [[1, 0]]` and mask entry `0`, the agent's `A[0]` is
`[1/2, 1/2]` after the call; with `mask=None` the list is unchanged. -/
theorem infer_states_mask_mutates_self_A :
    infer_states_self_A_after [2] [[1, 0]] (some [0]) = [[1/2, 1/2]]
    ∧ infer_states_self_A_after [2] [[1, 0]] (some [0]) ≠ [[1, 0]]
    ∧ infer_states_self_A_after [2] [[1, 0]] none = [[1, 0]] := by
  refine ⟨?_, ?_, rfl⟩
  · norm_num [infer_states_self_A_after, apply_mask_A]
  · norm_num [infer_states_self_A_after, apply_mask_A]

/-- C3: the claim that `B_action_dependencies` forces `sampling_mode = "full"`
matches the assignment on line 194, but line 212 unconditionally overwrites
the field with the constructor argument, so an agent constructed with
`B_action_dependencies = [[0]]` and `sampling_mode="marginal"` ends up in
marginal mode. -/
theorem init_sampling_mode_overridden :
    init_sampling_mode (some [[0]]) "marginal" = "marginal"
    ∧ "marginal" ≠ "full" := by
  exact ⟨rfl, by decide⟩

/-- C9: the claim that construction with `use_inductive=True` and `H` supplied
succeeds and derives `I` from `H` and `B` is right about the intent
(line 268 would call `control.generate_I_matrix(H, B, ...)`), but line 267
reads the field `self.H` before it is assigned (line 279), so every
construction with `use_inductive=True` raises `AttributeError`; with
`use_inductive=False` the field `I` defaults to per-factor zero tensors shaped
like `D` with an extra singleton axis. -/
theorem init_I_use_inductive_crashes :
    init_I true [[[1/2, 1/2]]] = Except.error InitErr.attributeErrorH
    ∧ init_I false [[[1/2, 1/2]]] = Except.ok [[[[0, 0]]]]
    ∧ (∀ D : List (List (List ℚ)), init_I true D = Except.error InitErr.attributeErrorH) := by
  exact ⟨rfl, rfl, fun D => rfl⟩

/-- C10: when `C` (resp. `D`) is omitted, every entry of the default
preference tensor `C[m]` is `1/num_obs[m]` (resp. every entry of `D[f]` is
`1/num_states[f]`), for every batch element. -/
theorem default_C_D_uniform (batch_size : Nat) (num_obs num_states : List Nat)
    (m b k f b2 k2 : Nat)
    (hm : m < num_obs.length) (hb : b < batch_size) (hk : k < num_obs.getD m 0)
    (hf : f < num_states.length) (hb2 : b2 < batch_size) (hk2 : k2 < num_states.getD f 0) :
    (((default_C batch_size num_obs).getD m []).getD b []).getD k 0
        = 1 / (num_obs.getD m 0 : ℚ)
    ∧ (((default_D batch_size num_states).getD f []).getD b2 []).getD k2 0
        = 1 / (num_states.getD f 0 : ℚ) := by
  constructor
  · have hm2 : m < (default_C batch_size num_obs).length := by
      unfold default_C; rw [List.length_map]; exact hm
    rw [List.getD_eq_getElem _ _ hm2]
    unfold default_C
    rw [List.getElem_map]
    rw [getD_replicate_lt _ _ _ _ hb]
    rw [getD_replicate_lt _ _ _ _ (by rw [← List.getD_eq_getElem num_obs 0 hm]; exact hk)]
    rw [List.getD_eq_getElem num_obs 0 hm]
  · have hf2 : f < (default_D batch_size num_states).length := by
      unfold default_D; rw [List.length_map]; exact hf
    rw [List.getD_eq_getElem _ _ hf2]
    unfold default_D
    rw [List.getElem_map]
    rw [getD_replicate_lt _ _ _ _ hb2]
    rw [getD_replicate_lt _ _ _ _ (by rw [← List.getD_eq_getElem num_states 0 hf]; exact hk2)]
    rw [List.getD_eq_getElem num_states 0 hf]

theorem default_C_D_uniform_witness :
    (((default_C 2 [4]).getD 0 []).getD 1 []).getD 3 0 = 1 / ((4 : Nat) : ℚ)
    ∧ (((default_D 2 [3]).getD 0 []).getD 0 []).getD 2 0 = 1 / ((3 : Nat) : ℚ) := by
  have h := default_C_D_uniform 2 [4] [3] 0 1 3 0 0 2 (by decide) (by decide) (by decide)
    (by decide) (by decide) (by decide)
  exact ⟨h.1, h.2⟩

/-! ### C4: random-source contract of `sample_action` -/

/-- C4: with stochastic action selection and no rng key, `sample_action`
raises the input-validation `ValueError` before any action is computed
(agent.py lines 549-550); with deterministic selection and either sampling
mode it succeeds with `rng_key=None`, and the result does not depend on any
rng key that is supplied — no randomness is consumed, so identical inputs
give identical actions. -/
theorem sample_action_rng_contract
    (draw : List ℚ → ℚ → Nat → Nat) (sampling_mode action_selection : String)
    (policies : List (List (List Nat))) (num_controls : List Nat) (alpha : ℚ)
    (q_pi : List ℚ) :
    (action_selection = "stochastic" →
      Agent.sample_action draw sampling_mode action_selection policies num_controls alpha q_pi
          none
        = .error "Please provide a random number generator key to sample actions stochastically")
    ∧ (action_selection = "deterministic" →
        (sampling_mode = "marginal" ∨ sampling_mode = "full") →
        (Agent.sample_action draw sampling_mode action_selection policies num_controls alpha q_pi
            none).isOk = true
        ∧ ∀ key, Agent.sample_action draw sampling_mode action_selection policies num_controls
              alpha q_pi (some key)
            = Agent.sample_action draw sampling_mode action_selection policies num_controls alpha
              q_pi none) := by
  constructor
  · intro hs
    unfold Agent.sample_action
    rw [if_pos ⟨rfl, hs⟩]
  · intro hd hm
    subst hd
    have hne : ¬("deterministic" = "stochastic") := by decide
    have hne2 : ¬("marginal" = "full") := by decide
    have hne3 : ¬("full" = "marginal") := by decide
    constructor
    · rcases hm with h | h <;> subst h <;>
        · unfold Agent.sample_action
          simp [hne, hne2, hne3, Except.isOk, Except.toBool]
    · intro key
      rcases hm with h | h <;> subst h <;>
        · unfold Agent.sample_action control.sample_action control.sample_policy
          simp [hne, hne2, hne3]

theorem sample_action_rng_contract_witness :
    (Agent.sample_action (fun _ _ _ => 0) "full" "stochastic" [[[0]]] [2] 1 [1, 0] none
      = .error "Please provide a random number generator key to sample actions stochastically")
    ∧ (Agent.sample_action (fun _ _ _ => 0) "full" "deterministic" [[[0]]] [2] 1 [1, 0]
        none).isOk = true := by
  have h1 := sample_action_rng_contract (fun _ _ _ => 0) "full" "stochastic" [[[0]]] [2] 1 [1, 0]
  have h2 := sample_action_rng_contract (fun _ _ _ => 0) "full" "deterministic" [[[0]]] [2] 1
    [1, 0]
  exact ⟨h1.1 rfl, (h2.2 rfl (Or.inr rfl)).1⟩

/-! ### C7, C8: the functional update `infer_parameters` -/

/-- C7: whatever the behaviour of the learning / maths / control
collaborators, a successful `infer_parameters` call returns a new agent value
in which only `A`, `pA`, `B`, `pB`, `I` can differ from the receiver: the
preferences `C`, the priors `D`, the policy prior `E` — and every other field
— are carried over unchanged (no update rule exists for them; the `learn_C`,
`learn_D`, `learn_E` hooks are commented out).  The receiver itself is a pure
value and is never mutated. -/
theorem infer_parameters_frame {α β : Type}
    (uObs : Option (List α) → β → β → List (List Nat) → ℚ → List α)
    (uState : Option (List α) → β → List β → List (List Nat) → ℚ → List α)
    (dev : α → α) (genI : List α → List α → α → Nat → List α)
    (oh : β → List Nat → β) (oha : List β → List Nat → List β)
    (sla : β → List β) (chk : β → List β → Bool)
    (self : AgentModel α) (bA o act : β) (bB : Option β) (lrA lrB : ℚ)
    (a2 : AgentModel α)
    (h : Agent.infer_parameters uObs uState dev genI oh oha sla chk self bA o act bB lrA lrB
      = .ok a2) :
    a2.C = self.C ∧ a2.D = self.D ∧ a2.E = self.E ∧ a2.H = self.H
    ∧ a2.gamma = self.gamma ∧ a2.alpha = self.alpha
    ∧ a2.inductive_threshold = self.inductive_threshold
    ∧ a2.inductive_epsilon = self.inductive_epsilon
    ∧ a2.inductive_depth = self.inductive_depth
    ∧ a2.use_inductive = self.use_inductive
    ∧ a2.learn_A = self.learn_A ∧ a2.learn_B = self.learn_B ∧ a2.learn_C = self.learn_C
    ∧ a2.learn_D = self.learn_D ∧ a2.learn_E = self.learn_E
    ∧ a2.A_dependencies = self.A_dependencies ∧ a2.B_dependencies = self.B_dependencies
    ∧ a2.num_obs = self.num_obs ∧ a2.num_controls = self.num_controls := by
  unfold Agent.infer_parameters at h
  cases hA : self.learn_A <;> cases hB : self.learn_B <;> simp [hA, hB] at h
  · subst a2
    simp [hA, hB]
  · cases hchk : chk (bB.getD bA) (sla act)
    · rw [hchk] at h
      simp at h
    · rw [hchk] at h
      simp at h
      subst a2
      simp [hA, hB]
  · subst a2
    simp [hA, hB]
  · cases hchk : chk (bB.getD bA) (sla act)
    · rw [hchk] at h
      simp at h
    · rw [hchk] at h
      simp at h
      subst a2
      simp [hA, hB]

theorem infer_parameters_frame_witness :
    (Agent.infer_parameters (α := Nat) (β := Unit)
        (fun _ _ _ _ _ => []) (fun _ _ _ _ _ => []) id (fun _ _ _ _ => [])
        (fun _ _ => ()) (fun _ _ => []) (fun _ => []) (fun _ _ => true)
        agentW () () () none 1 1).map (fun a => (a.C, a.D, a.E))
      = Except.ok (agentW.C, agentW.D, agentW.E) := by
  have h : Agent.infer_parameters (α := Nat) (β := Unit)
      (fun _ _ _ _ _ => []) (fun _ _ _ _ _ => []) id (fun _ _ _ _ => [])
      (fun _ _ => ()) (fun _ _ => []) (fun _ => []) (fun _ _ => true)
      agentW () () () none 1 1 = Except.ok agentW := rfl
  have h2 := infer_parameters_frame (α := Nat) (β := Unit)
    (fun _ _ _ _ _ => []) (fun _ _ _ _ _ => []) id (fun _ _ _ _ => [])
    (fun _ _ => ()) (fun _ _ => []) (fun _ => []) (fun _ _ => true)
    agentW () () () none 1 1 agentW h
  rw [h]
  exact congrArg (fun t => Except.ok (t, agentW.D, agentW.E)) h2.1

/-- C8: on a successful `infer_parameters` call, if `learn_B`, `use_inductive`
and goal vectors `H` are all present then the returned agent's reachability
matrices `I` are recomputed by `control.generate_I_matrix` from the *newly
learned* expected transition tensors (the returned agent's own `B`) together
with `inductive_threshold` and `inductive_depth`; if `use_inductive` is off or
`H` is absent, the returned agent's `I` equals the receiver's `I`. -/
theorem infer_parameters_I_recompute {α β : Type}
    (uObs : Option (List α) → β → β → List (List Nat) → ℚ → List α)
    (uState : Option (List α) → β → List β → List (List Nat) → ℚ → List α)
    (dev : α → α) (genI : List α → List α → α → Nat → List α)
    (oh : β → List Nat → β) (oha : List β → List Nat → List β)
    (sla : β → List β) (chk : β → List β → Bool)
    (self : AgentModel α) (bA o act : β) (bB : Option β) (lrA lrB : ℚ)
    (a2 : AgentModel α)
    (h : Agent.infer_parameters uObs uState dev genI oh oha sla chk self bA o act bB lrA lrB
      = .ok a2) :
    (self.learn_B = true → self.use_inductive = true → ∀ hs, self.H = some hs →
      a2.I = genI hs a2.B self.inductive_threshold self.inductive_depth)
    ∧ ((self.use_inductive = false ∨ self.H = none) → a2.I = self.I) := by
  unfold Agent.infer_parameters at h
  constructor
  · intro hB hUI hs hH
    simp [hB, hUI, hH] at h
    cases hchk : chk (bB.getD bA) (sla act)
    · rw [hchk] at h
      simp at h
    · rw [hchk] at h
      simp at h
      subst a2
      cases hA : self.learn_A <;> simp [hA]
  · intro hcond
    cases hB2 : self.learn_B
    · simp [hB2] at h
      subst a2
      cases hA : self.learn_A <;> simp [hA]
    · simp [hB2] at h
      cases hchk : chk (bB.getD bA) (sla act)
      · rw [hchk] at h
        simp at h
      · rw [hchk] at h
        simp at h
        subst a2
        rcases hcond with hc | hc
        · cases hA : self.learn_A <;> simp [hA, hc]
        · cases hA : self.learn_A <;> cases hui : self.use_inductive <;> simp [hA, hui, hc]

theorem infer_parameters_I_recompute_witness :
    Agent.infer_parameters (α := Nat) (β := Unit) (fun _ _ _ _ _ => [])
        (fun _ _ _ _ _ => [2]) (fun x => x + 1) (fun hs bs _ _ => hs ++ bs)
        (fun _ _ => ()) (fun _ _ => []) (fun _ => []) (fun _ _ => true)
        agentW2 () () () none 1 1
      = Except.ok { agentW2 with B := [3], pB := some [2], I := [9, 3] }
    ∧ ({ agentW2 with B := [3], pB := some [2], I := [9, 3] } : AgentModel Nat).I
      = [9] ++ [3] := by
  have h : Agent.infer_parameters (α := Nat) (β := Unit) (fun _ _ _ _ _ => [])
      (fun _ _ _ _ _ => [2]) (fun x => x + 1) (fun hs bs _ _ => hs ++ bs)
      (fun _ _ => ()) (fun _ _ => []) (fun _ => []) (fun _ _ => true)
      agentW2 () () () none 1 1
      = Except.ok { agentW2 with B := [3], pB := some [2], I := [9, 3] } := rfl
  refine ⟨h, ?_⟩
  exact (infer_parameters_I_recompute (α := Nat) (β := Unit) (fun _ _ _ _ _ => [])
    (fun _ _ _ _ _ => [2]) (fun x => x + 1) (fun hs bs _ _ => hs ++ bs)
    (fun _ _ => ()) (fun _ _ => []) (fun _ => []) (fun _ _ => true)
    agentW2 () () () none 1 1 _ h).1 rfl rfl [9] rfl

/-! ### Lemmas about `checkFrom`, `pyIdx` and `validate` -/

theorem checkFrom_ok_all (step : Nat → Except PyErr Unit) :
    ∀ (k s : Nat), checkFrom step s k = .ok () → ∀ j, s ≤ j → j < s + k → step j = .ok () := by
  intro k
  induction k with
  | zero => intro s _ j _ h2; omega
  | succ k ih =>
    intro s h j h1 h2
    unfold checkFrom at h
    cases hstep : step s with
    | error e =>
      rw [hstep] at h
      exact Except.noConfusion h
    | ok u =>
      rw [hstep] at h
      by_cases hj : j = s
      · subst hj
        cases u
        exact hstep
      · exact ih (s + 1) h j (by omega) (by omega)

theorem checkFrom_error_first (step : Nat → Except PyErr Unit) :
    ∀ (k s m : Nat) (e : PyErr), s ≤ m → m < s + k →
    (∀ j, s ≤ j → j < m → step j = .ok ()) → step m = .error e →
    checkFrom step s k = .error e := by
  intro k
  induction k with
  | zero => intro s m e h1 h2; omega
  | succ k ih =>
    intro s m e h1 h2 hok herr
    unfold checkFrom
    by_cases hs : m = s
    · subst hs
      rw [herr]
    · have hstep : step s = .ok () := hok s (Nat.le_refl s) (by omega)
      rw [hstep]
      exact ih (s + 1) m e (by omega) (by omega) (fun j hj1 hj2 => hok j (by omega) hj2) herr

theorem validate_ok_checkA {ctx : ValidateCtx} (h : validate ctx = .ok ()) :
    ∀ m, m < ctx.num_modalities → checkA ctx m = .ok () := by
  intro m hm
  unfold validate at h
  cases hA : checkFrom (checkA ctx) 0 ctx.num_modalities with
  | error e =>
    rw [hA] at h
    exact Except.noConfusion h
  | ok u =>
    cases u
    exact checkFrom_ok_all (checkA ctx) ctx.num_modalities 0 hA m (Nat.zero_le m) (by omega)

theorem validate_ok_checkB {ctx : ValidateCtx} (h : validate ctx = .ok ()) :
    ∀ f, f < ctx.num_factors → checkB ctx f = .ok () := by
  intro f hf
  unfold validate at h
  cases hA : checkFrom (checkA ctx) 0 ctx.num_modalities with
  | error e =>
    rw [hA] at h
    exact Except.noConfusion h
  | ok u =>
    cases u
    rw [hA] at h
    cases hB : checkFrom (checkB ctx) 0 ctx.num_factors with
    | error e =>
      rw [hB] at h
      exact Except.noConfusion h
    | ok u2 =>
      cases u2
      exact checkFrom_ok_all (checkB ctx) ctx.num_factors 0 hB f (Nat.zero_le f) (by omega)

theorem pyIdx_ok_lt {γ : Type} [Inhabited γ] {xs : List γ} {i : Int} {y : γ}
    (h : pyIdx xs i = .ok y) : i < (xs.length : Int) := by
  unfold pyIdx at h
  by_cases hc : i < -((xs.length : Nat) : Int) ∨ ((xs.length : Nat) : Int) ≤ i
  · rw [if_pos hc] at h
    exact Except.noConfusion h
  · omega

theorem factorDims_ok_mem {ns : List Nat} : ∀ {deps : List Int} {ds : List Nat},
    factorDims ns deps = .ok ds → ∀ d ∈ deps, ∃ v, pyIdx ns d = .ok v := by
  intro deps
  induction deps with
  | nil => intro ds _ d hd; simp at hd
  | cons x rest ih =>
    intro ds h d hd
    unfold factorDims at h
    cases hx : pyIdx ns x with
    | error e =>
      rw [hx] at h
      exact Except.noConfusion h
    | ok v =>
      rw [hx] at h
      cases hrest : factorDims ns rest with
      | error e =>
        rw [hrest] at h
        exact Except.noConfusion h
      | ok vs =>
        rcases List.mem_cons.mp hd with h1 | h2
        · subst h1
          exact ⟨v, hx⟩
        · exact ih hrest d h2

/-! ### C5: construction fails on a trailing-shape mismatch of `A[m]`/`pA[m]` -/

/-- C5: whenever the trailing (non-batch, non-observation) dimensions of
`A[m]` — or of `pA[m]` when `pA` is present — differ from the state counts of
the factors named in `A_dependencies[m]`, `Agent._validate` raises, so
`Agent.__init__` (which calls it on line 291) produces no agent value; and
when the earlier modalities pass their checks, the raised error is exactly
the assertion naming the offending modality `m`. -/
theorem validate_A_shape_mismatch (ctx : ValidateCtx) (m : Nat) (deps : List Int)
    (ds ash : List Nat)
    (hm : m < ctx.num_modalities)
    (hdeps : pyIdx ctx.A_dependencies (m : Int) = .ok deps)
    (hds : factorDims ctx.num_states deps = .ok ds)
    (hash : pyIdx ctx.A_shapes (m : Int) = .ok ash)
    (hmis : ash.drop 2 ≠ ds ∨ ∃ pas pash, ctx.pA_shapes = some pas
        ∧ pyIdx pas (m : Int) = .ok pash ∧ pash.drop 2 ≠ ds) :
    validate ctx ≠ .ok ()
    ∧ ((∀ k, k < m → checkA ctx k = .ok ()) →
        validate ctx = .error (.assertA m) ∨ validate ctx = .error (.assertPA m)) := by
  have hchk : checkA ctx m = .error (.assertA m) ∨ checkA ctx m = .error (.assertPA m) := by
    unfold checkA
    simp only [hdeps, hds, hash]
    by_cases hA : ash.drop 2 ≠ ds
    · left
      rw [if_pos hA]
    · rcases hmis with h | ⟨pas, pash, hpas, hpash, hpmis⟩
      · exact absurd h hA
      · right
        simp only [if_neg hA, hpas, hpash, if_pos hpmis]
  constructor
  · intro hok
    have hA := validate_ok_checkA hok m hm
    rcases hchk with h | h <;> rw [h] at hA <;> exact Except.noConfusion hA
  · intro hprev
    rcases hchk with h | h
    · left
      unfold validate
      rw [checkFrom_error_first (checkA ctx) ctx.num_modalities 0 m (.assertA m)
        (Nat.zero_le m) (by omega) (fun j _ hj2 => hprev j hj2) h]
    · right
      unfold validate
      rw [checkFrom_error_first (checkA ctx) ctx.num_modalities 0 m (.assertPA m)
        (Nat.zero_le m) (by omega) (fun j _ hj2 => hprev j hj2) h]

theorem validate_A_shape_mismatch_witness :
    factorDims ctxShapeMismatch.num_states [0] = Except.ok [2]
    ∧ [1, 3, 5].drop 2 ≠ [2]
    ∧ validate ctxShapeMismatch ≠ Except.ok () := by
  refine ⟨rfl, by decide, ?_⟩
  exact (validate_A_shape_mismatch ctxShapeMismatch 0 [0] [2] [1, 3, 5] (by decide) rfl rfl rfl
    (Or.inl (by decide))).1

/-! ### C6: dependency-index range checking -/

/-- The C6 claim as stated is false for negative indices: `_validate` only
checks `max(deps) <= num_factors - 1` (lines 713, 727) and computes the factor
dims with Python indexing, which wraps negative indices, so the agent with
`A_dependencies = [[-1]]` (and `-1` outside `[0, num_factors) = [0, 1)`)
validates successfully: `-1` silently aliases factor `num_factors - 1`. -/
theorem validate_negative_dep_accepted :
    validate ctxNegDep = Except.ok ()
    ∧ ctxNegDep.A_dependencies = [[-1]]
    ∧ (-1 : Int) < 0 := by
  refine ⟨?_, rfl, by decide⟩
  rfl

/-- C6 (amended): a dependency index `d ≥ num_factors` in `A_dependencies` or
`B_dependencies` makes construction fail (the factor-dims lookup raises
`IndexError` before the `max` assertion is reached), so no agent value is
produced; a *negative* index, however, is not rejected — it wraps around
Python-style and passes validation when the aliased shapes match (see the
counterexample). -/
theorem validate_dep_index_too_large (ctx : ValidateCtx)
    (hns : ctx.num_states.length = ctx.num_factors) :
    ((∃ m, m < ctx.num_modalities ∧ ∃ deps, pyIdx ctx.A_dependencies (m : Int) = .ok deps
        ∧ ∃ d ∈ deps, (ctx.num_factors : Int) ≤ d) ∨
     (∃ f, f < ctx.num_factors ∧ ∃ deps, pyIdx ctx.B_dependencies (f : Int) = .ok deps
        ∧ ∃ d ∈ deps, (ctx.num_factors : Int) ≤ d)) →
    validate ctx ≠ .ok () := by
  intro hcase hok
  rcases hcase with ⟨m, hm, deps, hdeps, d, hd, hge⟩ | ⟨f, hf, deps, hdeps, d, hd, hge⟩
  · have hA := validate_ok_checkA hok m hm
    unfold checkA at hA
    simp only [hdeps] at hA
    cases hds : factorDims ctx.num_states deps with
    | error e =>
      rw [hds] at hA
      exact Except.noConfusion hA
    | ok ds =>
      rcases factorDims_ok_mem hds d hd with ⟨v, hv⟩
      have hlt := pyIdx_ok_lt hv
      rw [hns] at hlt
      omega
  · have hB := validate_ok_checkB hok f hf
    unfold checkB at hB
    simp only [hdeps] at hB
    cases hds : factorDims ctx.num_states deps with
    | error e =>
      rw [hds] at hB
      exact Except.noConfusion hB
    | ok ds =>
      rcases factorDims_ok_mem hds d hd with ⟨v, hv⟩
      have hlt := pyIdx_ok_lt hv
      rw [hns] at hlt
      omega

theorem validate_dep_index_too_large_witness :
    ctxBigDep.num_states.length = ctxBigDep.num_factors
    ∧ ctxBigDep.A_dependencies = [[5]]
    ∧ validate ctxBigDep ≠ Except.ok () := by
  refine ⟨rfl, rfl, ?_⟩
  exact validate_dep_index_too_large ctxBigDep rfl
    (Or.inl ⟨0, by decide, [5], rfl, 5, by decide, by decide⟩)

end PymdpAgent
